import Mathlib

/-!
Verification of the gwq worktree-discovery engine against its
natural-language specification.

The Go sources (package `discovery`, package `url`, and the small parts of
`utils` they use) are shallowly embedded below.  Pure string manipulation is
translated to executable Lean functions over `String`/`List Char`; the
filesystem is an explicit snapshot value (an association list from absolute
path to node kind and content); the external `git`/`ghq` process boundary is
an explicit oracle record carried in an environment, so that "the fast path
never spawns a process" becomes "the result does not depend on the oracle".

Modelling conventions, stated once:
* Go strings are byte strings; we model them as `String` (lists of
  characters) and restrict whitespace/lowercase handling to ASCII, which
  covers every format the engine parses (git metadata files are ASCII).
* `path/filepath` functions (`Join`, `Base`, `Dir`, `IsAbs`, `Rel`) are
  modelled for cleaned slash-separated paths without `.`/`..` segments,
  the only shape the discovery engine produces or consumes.
* Concurrency: extraction is a pure function of the snapshot, so the worker
  pool's disjoint result slots and the pipeline's single collector yield a
  schedule-independent multiset of entries; the embeddings fix the collector
  order to walk order, which is irrelevant to the set-valued claims proved.
-/

namespace GwqSpec

/-! ## ASCII string helpers (models of Go `strings` functions) -/

/-- Model of Go `unicode.IsSpace` restricted to ASCII whitespace. -/
def goIsSpace (c : Char) : Bool :=
  c == ' ' || c == '\t' || c == '\n' || c == '\r' || c == '\x0b' || c == '\x0c'

/-- Model of Go `strings.TrimSpace` (ASCII whitespace). -/
def strTrimSpace (s : String) : String :=
  ⟨(((s.data.dropWhile goIsSpace).reverse).dropWhile goIsSpace).reverse⟩

/-- Does the first list start with the second? -/
def listStartsWith : List Char → List Char → Bool
  | _, [] => true
  | [], _ :: _ => false
  | a :: as, b :: bs => a == b && listStartsWith as bs

/-- Model of Go `strings.HasPrefix`. -/
def strStartsWith (s pre : String) : Bool :=
  listStartsWith s.data pre.data

/-- Model of Go `strings.TrimPrefix`: drop `pre` when present, else unchanged. -/
def strStripStart (s pre : String) : String :=
  if strStartsWith s pre then ⟨s.data.drop pre.data.length⟩ else s

/-- Model of Go `strings.HasSuffix`. -/
def strEndsWith (s suf : String) : Bool :=
  listStartsWith s.data.reverse suf.data.reverse

/-- Model of Go `strings.TrimSuffix`. -/
def strStripEnd (s suf : String) : String :=
  if strEndsWith s suf then ⟨s.data.take (s.data.length - suf.data.length)⟩ else s

/-- Does the list contain the second list as a contiguous sublist? -/
def listContainsSub : List Char → List Char → Bool
  | l, sub =>
    if listStartsWith l sub then true
    else match l with
      | [] => false
      | _ :: as => listContainsSub as sub

/-- Model of Go `strings.Contains`. -/
def strContains (s sub : String) : Bool :=
  listContainsSub s.data sub.data

/-- ASCII lower-casing of one character (model of `unicode.ToLower` on ASCII). -/
def goToLowerChar (c : Char) : Char :=
  if 'A' ≤ c && c ≤ 'Z' then Char.ofNat (c.toNat + 32) else c

/-- Model of Go `strings.ToLower` (ASCII). -/
def strToLower (s : String) : String :=
  ⟨s.data.map goToLowerChar⟩

/-- Split a character list at every newline (model of `strings.Split` at `"\n"`). -/
def splitLinesList : List Char → List (List Char)
  | [] => [[]]
  | a :: as =>
    match splitLinesList as with
    | [] => [[]]
    | l :: ls => if a == '\n' then [] :: l :: ls else (a :: l) :: ls

/-- Model of Go `strings.Split(s, "\n")`. -/
def strSplitLines (s : String) : List String :=
  (splitLinesList s.data).map (fun l => ⟨l⟩)

/-- Model of Go `strings.TrimLeft(s, " \t")`. -/
def strTrimLeftSpaceTab (s : String) : String :=
  ⟨s.data.dropWhile (fun c => c == ' ' || c == '\t')⟩

/-- Model of Go `strings.CutPrefix(s, "=")`. -/
def strCutEq (s : String) : Option String :=
  match s.data with
  | '=' :: rest => some ⟨rest⟩
  | _ => none

/-! ## HEAD-file parsing (discovery fast path) -/

/-- Embeds `isHexString` (src/internal/discovery: fast path helpers). -/
def isHexString (s : String) : Bool :=
  s.data.all fun c =>
    !((c < '0' || c > '9') && (c < 'a' || c > 'f') && (c < 'A' || c > 'F'))

/-- Embeds `parseBranchOrCommitFromHead`: parse the current-reference (HEAD)
file content into `(branch, commit, needsFallback)`.  Only `refs/heads/` and a
40-character hex commit id are supported; everything else triggers fallback. -/
def parseBranchOrCommitFromHead (content : String) : String × String × Bool :=
  let content := strTrimSpace content
  if strStartsWith content "ref: refs/heads/" then
    (strStripStart content "ref: refs/heads/", "", false)
  else if content.data.length == 40 && isHexString content then
    ("HEAD", content, false)
  else
    ("", "", true)

/-- C3: the fast-path HEAD parser recognizes exactly the two documented forms;
anything else signals fallback with no fabricated branch or commit. -/
theorem C3_head_parser_two_forms (content : String) :
    (strStartsWith (strTrimSpace content) "ref: refs/heads/" = true →
      parseBranchOrCommitFromHead content =
        (strStripStart (strTrimSpace content) "ref: refs/heads/", "", false)) ∧
    (strStartsWith (strTrimSpace content) "ref: refs/heads/" = false →
      (strTrimSpace content).data.length = 40 →
      isHexString (strTrimSpace content) = true →
      parseBranchOrCommitFromHead content = ("HEAD", strTrimSpace content, false)) ∧
    (strStartsWith (strTrimSpace content) "ref: refs/heads/" = false →
      ((strTrimSpace content).data.length = 40 → isHexString (strTrimSpace content) = false) →
      parseBranchOrCommitFromHead content = ("", "", true)) := by
  refine ⟨fun h => ?_, fun h hl hx => ?_, fun h hnot => ?_⟩
  · simp [parseBranchOrCommitFromHead, h]
  · simp [parseBranchOrCommitFromHead, h, hl, hx]
  · by_cases hl : (strTrimSpace content).data.length = 40
    · simp [parseBranchOrCommitFromHead, h, hl, hnot hl]
    · simp [parseBranchOrCommitFromHead, h, hl]
      exact fun hlen => absurd hlen hl

/-- Witness for C3 at the three concrete scenario inputs: a branch reference,
a 40-character hex commit id, and a tag reference (Scenario E). -/
theorem C3_head_parser_two_forms_witness :
    parseBranchOrCommitFromHead "ref: refs/heads/feature1" = ("feature1", "", false) ∧
    parseBranchOrCommitFromHead "0123456789abcdef0123456789abcdef01234567" =
      ("HEAD", "0123456789abcdef0123456789abcdef01234567", false) ∧
    parseBranchOrCommitFromHead "ref: refs/tags/v1.0.0" = ("", "", true) := by
  refine ⟨?_, ?_, ?_⟩
  · have h := (C3_head_parser_two_forms "ref: refs/heads/feature1").1 (by decide)
    simpa using h
  · have h := (C3_head_parser_two_forms
      "0123456789abcdef0123456789abcdef01234567").2.1 (by decide) (by decide) (by decide)
    simpa using h
  · have h := (C3_head_parser_two_forms "ref: refs/tags/v1.0.0").2.2 (by decide)
      (by decide)
    simpa using h

/-! ## Filesystem snapshot model -/

/-- Errors crossing the Go `error` boundary.  `notExist` is the class of
errors for which `os.IsNotExist` returns true; every other error carries its
message. -/
inductive GoErr where
  | notExist
  | other (msg : String)
  deriving DecidableEq, Repr

/-- What a symbolic link resolves to (`os.Stat` view of the link). -/
inductive SymTarget where
  | toDir
  | toFile (content : String)
  | broken
  deriving DecidableEq, Repr

/-- One filesystem node: a directory, a regular file with its content, a
symbolic link, an inaccessible node (stat fails with a non-not-exist error,
e.g. permission denied), or some other kind (socket, device, ...). -/
inductive GEntry where
  | dir
  | file (content : String)
  | symlink (target : SymTarget)
  | inaccessible
  | otherKind
  deriving DecidableEq, Repr

/-- File kind as reported by `os.FileInfo.Mode()`. -/
inductive FileKind where
  | dirK
  | regularK
  | symlinkK
  | otherK
  deriving DecidableEq, Repr

/-- A filesystem snapshot: absolute cleaned path → node.  Well-formed
snapshots bind each path at most once. -/
abbrev GoFS := List (String × GEntry)

def lookupFS (fs : GoFS) (p : String) : Option GEntry :=
  (fs.find? (fun e => e.1 == p)).map (·.2)

/-- Model of `os.Lstat` restricted to the node kind (symlinks not followed). -/
def goLstat (fs : GoFS) (p : String) : Except GoErr FileKind :=
  match lookupFS fs p with
  | none => .error .notExist
  | some .dir => .ok .dirK
  | some (.file _) => .ok .regularK
  | some (.symlink _) => .ok .symlinkK
  | some .inaccessible => .error (.other ("permission denied: " ++ p))
  | some .otherKind => .ok .otherK

/-- Model of `os.Stat` (symlinks followed one level, as recorded in the
link's target). -/
def goStat (fs : GoFS) (p : String) : Except GoErr FileKind :=
  match lookupFS fs p with
  | none => .error .notExist
  | some .dir => .ok .dirK
  | some (.file _) => .ok .regularK
  | some (.symlink .toDir) => .ok .dirK
  | some (.symlink (.toFile _)) => .ok .regularK
  | some (.symlink .broken) => .error .notExist
  | some .inaccessible => .error (.other ("permission denied: " ++ p))
  | some .otherKind => .ok .otherK

/-- Model of `os.ReadFile` (follows symlinks to regular files). -/
def goReadFile (fs : GoFS) (p : String) : Except GoErr String :=
  match lookupFS fs p with
  | none => .error .notExist
  | some (.file c) => .ok c
  | some (.symlink (.toFile c)) => .ok c
  | some (.symlink .broken) => .error .notExist
  | some _ => .error (.other ("read error: " ++ p))

/-! ## filepath models (cleaned slash-separated paths) -/

/-- Model of `filepath.IsAbs`. -/
def goIsAbs (p : String) : Bool := strStartsWith p "/"

/-- Model of `filepath.Join` for two nonempty cleaned components without
`.`/`..` segments (the only joins the engine performs). -/
def goJoin (a b : String) : String := a ++ "/" ++ b

/-! ## Git config scanning (fast-path URL extraction) -/

/-- The line scan of `parseRemoteFromConfigSimple`: walk the lines with an
`inOrigin` flag; a case-insensitive `[remote "origin"]` header enters the
section, any other section header while inside breaks out (→ not found), and
a `url` key with flexible whitespace around `=` yields its nonempty value. -/
def parseConfigLines : Bool → List String → Except GoErr String
  | _, [] => .error (.other "origin remote not found")
  | inOrigin, line :: rest =>
    let trimmedLine := strTrimSpace line
    let lineLower := strToLower trimmedLine
    if lineLower == "[remote \"origin\"]" then
      parseConfigLines true rest
    else if inOrigin && strStartsWith trimmedLine "[" then
      .error (.other "origin remote not found")
    else if inOrigin && strStartsWith lineLower "url" then
      match strCutEq (strTrimLeftSpaceTab ⟨trimmedLine.data.drop 3⟩) with
      | some value =>
        let value := strTrimSpace value
        if value ≠ "" then .ok value else parseConfigLines inOrigin rest
      | none => parseConfigLines inOrigin rest
    else
      parseConfigLines inOrigin rest

/-- Body of `parseRemoteFromConfigSimple` on the file content: bail out when
the config contains an include or conditional-include directive, otherwise
scan the lines for the origin remote's url. -/
def parseRemoteFromConfigContent (contentStr : String) : Except GoErr String :=
  let contentLower := strToLower contentStr
  if strContains contentLower "[include]" || strContains contentLower "[includeif" then
    .error (.other "config includes external files")
  else
    parseConfigLines false (strSplitLines contentStr)

/-- Embeds `parseRemoteFromConfigSimple`: read the config file and scan it. -/
def parseRemoteFromConfigSimple (fs : GoFS) (configPath : String) : Except GoErr String :=
  match goReadFile fs configPath with
  | .error e => .error e
  | .ok content => parseRemoteFromConfigContent content

/-- C4: a config file containing an `[include]` or `[includeIf ...]` section
anywhere makes the fast-path URL parse abort (signal fallback), even when a
valid `[remote "origin"]` url is present in the same file. -/
theorem C4_config_include_aborts (fs : GoFS) (configPath content : String)
    (hread : goReadFile fs configPath = .ok content)
    (hinc : strContains (strToLower content) "[include]" = true ∨
      strContains (strToLower content) "[includeif" = true) :
    parseRemoteFromConfigSimple fs configPath =
      .error (.other "config includes external files") := by
  unfold parseRemoteFromConfigSimple
  rw [hread]
  unfold parseRemoteFromConfigContent
  rcases hinc with h | h <;> simp [h]

/-- A concrete config file that contains both a valid origin section and an
include directive. -/
def includeConfigContent : String :=
  "[remote \"origin\"]\n\turl = https://github.com/acme/widget.git\n[include]\n\tpath = other\n"

def includeConfigFS : GoFS :=
  [("/repo/.git/config", .file includeConfigContent)]

/-- Witness for C4: the concrete config above aborts the fast-path parse. -/
theorem C4_config_include_aborts_witness :
    parseRemoteFromConfigSimple includeConfigFS "/repo/.git/config" =
      .error (.other "config includes external files") :=
  C4_config_include_aborts includeConfigFS "/repo/.git/config" includeConfigContent
    rfl (Or.inl (by decide))

/-! ## More string helpers -/

/-- Split a list at every occurrence of a character (model of `strings.Split`
with a one-character separator). -/
def listSplitChar (c : Char) : List Char → List (List Char)
  | [] => [[]]
  | a :: as =>
    match listSplitChar c as with
    | [] => [[]]
    | l :: ls => if a == c then [] :: l :: ls else (a :: l) :: ls

/-- Model of `strings.Cut` with a one-character separator: split at the first
occurrence, `none` when absent. -/
def listCutChar (c : Char) : List Char → Option (List Char × List Char)
  | [] => none
  | a :: as =>
    if a == c then some ([], as)
    else (listCutChar c as).map (fun p => (a :: p.1, p.2))

/-- Split at the first occurrence of a substring (model of
`strings.SplitN(s, sep, 2)` / `strings.Cut`). -/
def listCutSub (sub : List Char) : List Char → Option (List Char × List Char)
  | [] => if listStartsWith [] sub then some ([], []) else none
  | a :: as =>
    if listStartsWith (a :: as) sub then some ([], (a :: as).drop sub.length)
    else (listCutSub sub as).map (fun p => (a :: p.1, p.2))

/-- Model of `strings.Trim(s, "/")`. -/
def strTrimSlashes (s : String) : String :=
  ⟨((s.data.dropWhile (· == '/')).reverse.dropWhile (· == '/')).reverse⟩

/-- The suffix after the last `@`, or the whole string when there is no `@`
(models the `strings.LastIndex` slice in `normalizeCodeCommitURL`). -/
def strAfterLastAt (s : String) : String :=
  match listCutChar '@' s.data.reverse with
  | some (pre, _) => ⟨pre.reverse⟩
  | none => s

/-! ## Repository URL parsing (package url) -/

/-- Embeds `RepositoryInfo` (src/internal/url). -/
structure RepositoryInfo where
  host : String
  owner : String
  repository : String
  fullPath : String
  deriving DecidableEq, Repr

/-- Embeds `normalizeCodeCommitURL`: convert the AWS CodeCommit credential
helper format to an HTTPS URL, or return `""` when the shape is wrong. -/
def normalizeCodeCommitURL (repoURL : String) : String :=
  let rest := strStripStart repoURL "codecommit::"
  match listCutSub "://".data rest.data with
  | none => ""
  | some (region, repoInfo) =>
    let repoName := strAfterLastAt ⟨repoInfo⟩
    "https://git-codecommit." ++ (⟨region⟩ : String) ++ ".amazonaws.com/repos/" ++ repoName

/-- Embeds `normalizeURL`: convert the supported git URL formats to an
HTTP(S) URL for parsing. -/
def normalizeURL (repoURL : String) : String :=
  if strStartsWith repoURL "codecommit::" && normalizeCodeCommitURL repoURL != "" then
    normalizeCodeCommitURL repoURL
  else
    let repoURL :=
      if strStartsWith repoURL "git@" then
        match listCutChar ':' repoURL.data with
        | some (host, path) =>
          "https://" ++ strStripStart ⟨host⟩ "git@" ++ "/" ++ (⟨path⟩ : String)
        | none => repoURL
      else if strStartsWith repoURL "ssh://git@" then
        let rest := strStripStart repoURL "ssh://git@"
        match listCutChar ':' rest.data with
        | some (host, path) => "https://" ++ (⟨host⟩ : String) ++ "/" ++ (⟨path⟩ : String)
        | none => "https://" ++ rest
      else if strStartsWith repoURL "ssh://" then
        "https://" ++ strStripStart repoURL "ssh://"
      else repoURL
    if !strStartsWith repoURL "http://" && !strStartsWith repoURL "https://" then
      "https://" ++ repoURL
    else repoURL

/-- Model of `net/url.Parse` restricted to `scheme://host/path` URLs without
userinfo, port, query or fragment — the shape `normalizeURL` produces for the
repository URLs this engine handles.  Returns `(Host, Path)`. -/
def goURLHostPath (u : String) : Option (String × String) :=
  match listCutSub "://".data u.data with
  | none => none
  | some (_, rest) =>
    some (⟨rest.takeWhile (· ≠ '/')⟩, ⟨rest.dropWhile (· ≠ '/')⟩)

/-- Embeds `ParseRepositoryURL`: normalize, parse, and split the path into
owner and repository (dropping a `.git` suffix). -/
def ParseRepositoryURL (repoURL : String) : Except GoErr RepositoryInfo :=
  let repoURL := normalizeURL repoURL
  match goURLHostPath repoURL with
  | none => .error (.other ("failed to parse repository URL: " ++ repoURL))
  | some (host, path) =>
    if host == "" then .error (.other ("no host found in URL: " ++ repoURL))
    else
      match listSplitChar '/' (strTrimSlashes path).data with
      | ownerL :: repoL :: _ =>
        let owner : String := ⟨ownerL⟩
        let repository := strStripEnd ⟨repoL⟩ ".git"
        .ok ⟨host, owner, repository, goJoin host (goJoin owner repository)⟩
      | _ => .error (.other ("invalid repository path: " ++ path))

/-! ## filepath Base / Dir and the main-git-dir heuristic -/

/-- Model of `filepath.Base` on cleaned paths. -/
def goBase (p : String) : String :=
  let parts := (listSplitChar '/' p.data).filter (fun l => l ≠ [])
  match parts.getLast? with
  | some l => ⟨l⟩
  | none => if strStartsWith p "/" then "/" else "."

/-- Model of `filepath.Dir` on cleaned paths. -/
def goDir (p : String) : String :=
  match (p.data.reverse.dropWhile (fun c => c ≠ '/')).reverse with
  | [] => "."
  | ['/'] => "/"
  | l => ⟨l.dropLast⟩

/-- The loop body of `findMainGitDir`, with explicit fuel: on cleaned paths
`filepath.Dir` strictly shortens its argument until the fixpoint (`/` or `.`),
so `length + 1` steps always reach the source loop's `parent == dir` exit. -/
def findMainGitDirLoop (gitdir : String) : Nat → String → String
  | 0, _ => gitdir
  | fuel + 1, dir =>
    let base := goBase dir
    let parent := goDir dir
    if base == "worktrees" && goBase parent == ".git" then parent
    else if parent == dir then gitdir
    else findMainGitDirLoop gitdir fuel parent

/-- Embeds `findMainGitDir`: strip a trailing `.../.git/worktrees/<name>`
suffix back to `.../.git`; return the input unchanged when the shape does not
match. -/
def findMainGitDir (gitdir : String) : String :=
  findMainGitDirLoop gitdir (gitdir.data.length + 1) gitdir

/-- Embeds `findMainGitDirWithCommondir`: prefer the `commondir` indirection
file (resolved against `gitdir` when relative); fall back to the structural
heuristic. -/
def findMainGitDirWithCommondir (fs : GoFS) (gitdir : String) : String :=
  match goReadFile fs (goJoin gitdir "commondir") with
  | .ok content =>
    let commondir := strTrimSpace content
    if goIsAbs commondir then commondir else goJoin gitdir commondir
  | .error _ => findMainGitDir gitdir

/-- Embeds `readCommitFromRefSafe`: read the loose reference file for a
branch; a missing file is an error (packed refs are not parsed).  The Go code
wraps the error with `%w`, preserving its not-exist class, which `GoErr`
already carries. -/
def readCommitFromRefSafe (fs : GoFS) (mainGitDir branch : String) : Except GoErr String :=
  match goReadFile fs (goJoin (goJoin (goJoin mainGitDir "refs") "heads") branch) with
  | .error e => .error e
  | .ok content => .ok (strTrimSpace content)

/-! ## The fast metadata extractor -/

/-- Embeds `readWorktreeDetailsFast`: derive
`(repositoryURL, repositoryInfo, branch, commitHash)` for a worktree by
reading git metadata files only; any failure aborts the whole fast path. -/
def readWorktreeDetailsFast (fs : GoFS) (worktreePath : String) :
    Except GoErr (String × Option RepositoryInfo × String × String) :=
  match goReadFile fs (goJoin worktreePath ".git") with
  | .error e => .error e
  | .ok content =>
    let contentStr := strTrimSpace content
    if !strStartsWith contentStr "gitdir:" then
      .error (.other "invalid .git file format: missing gitdir: prefix")
    else
      let gitdirRaw := strTrimSpace (strStripStart contentStr "gitdir:")
      let gitdir := if goIsAbs gitdirRaw then gitdirRaw else goJoin worktreePath gitdirRaw
      match goReadFile fs (goJoin gitdir "HEAD") with
      | .error e => .error e
      | .ok headContent =>
        match parseBranchOrCommitFromHead headContent with
        | (_, _, true) => .error (.other "unsupported ref format")
        | (branch, commitHash, false) =>
          let mainGitDir := findMainGitDirWithCommondir fs gitdir
          let commitStep : Except GoErr String :=
            if commitHash == "" && branch != "HEAD" then
              readCommitFromRefSafe fs mainGitDir branch
            else .ok commitHash
          match commitStep with
          | .error e => .error e
          | .ok commitHash =>
            match parseRemoteFromConfigSimple fs (goJoin mainGitDir "config") with
            | .error e => .error e
            | .ok repoURL =>
              .ok (repoURL, (ParseRepositoryURL repoURL).toOption, branch, commitHash)

/-! ## Entries, the git-command oracle, and fallback extraction -/

/-- Embeds `GlobalWorktreeEntry` (value part; the lazy-loading guard is
modelled separately as `LazyEntry`). -/
structure GlobalWorktreeEntry where
  repositoryURL : String
  repositoryInfo : Option RepositoryInfo
  branch : String
  path : String
  commitHash : String
  isMain : Bool
  displayPath : String
  loaded : Bool
  deriving DecidableEq, Repr

/-- The external version-control binary, as an oracle: the three queries the
fallback extractor issues.  This is the process boundary of §6; the engine
never interprets more of git than these answers. -/
structure GitRunner where
  repoURL : String → Except GoErr String
  currentBranch : String → Except GoErr String
  currentCommit : String → Except GoErr String

/-- One discovery invocation's world: a filesystem snapshot plus the
external git binary. -/
structure Env where
  fs : GoFS
  git : GitRunner

/-- Embeds `getCurrentBranch` (trims the `rev-parse --abbrev-ref HEAD`
output; the detached case returns the literal `"HEAD"` unchanged). -/
def getCurrentBranch (env : Env) (worktreePath : String) : Except GoErr String :=
  match env.git.currentBranch worktreePath with
  | .error e => .error e
  | .ok output => .ok (strTrimSpace output)

/-- Embeds `getCurrentCommitHash`. -/
def getCurrentCommitHash (env : Env) (worktreePath : String) : Except GoErr String :=
  match env.git.currentCommit worktreePath with
  | .error e => .error e
  | .ok output => .ok (strTrimSpace output)

/-- Embeds `extractWorktreeInfo`: the fallback extractor, via git commands.
A URL error is ignored (empty URL); branch or commit errors fail the entry. -/
def extractWorktreeInfo (env : Env) (worktreePath : String) :
    Except GoErr GlobalWorktreeEntry :=
  let urlPart :=
    match env.git.repoURL worktreePath with
    | .ok rawURL => (rawURL, (ParseRepositoryURL rawURL).toOption)
    | .error _ => ("", none)
  match getCurrentBranch env worktreePath with
  | .error e => .error e
  | .ok branch =>
    match getCurrentCommitHash env worktreePath with
    | .error e => .error e
    | .ok commitHash =>
      .ok { repositoryURL := urlPart.1, repositoryInfo := urlPart.2, branch := branch,
            path := worktreePath, commitHash := commitHash, isMain := false,
            displayPath := "", loaded := true }

/-- Embeds `extractWorktreeInfoWithFallback`: fast extraction first, git
commands when the fast path signals anything it cannot handle. -/
def extractWorktreeInfoWithFallback (env : Env) (worktreePath : String) :
    Except GoErr GlobalWorktreeEntry :=
  match readWorktreeDetailsFast env.fs worktreePath with
  | .error _ => extractWorktreeInfo env worktreePath
  | .ok (repoURL, repoInfo, branch, commitHash) =>
    .ok { repositoryURL := repoURL, repositoryInfo := repoInfo, branch := branch,
          path := worktreePath, commitHash := commitHash, isMain := false,
          displayPath := "", loaded := true }

/-! ## Scenario C snapshot (claim C1) -/

/-- Snapshot for Scenario C: a worktree whose pointer resolves to a metadata
directory with a branch HEAD, a loose ref under the main metadata directory,
and a plain config with an origin url. -/
def fastFS : GoFS :=
  [ ("/wt", .dir),
    ("/wt/feature1", .dir),
    ("/wt/feature1/.git", .file "gitdir: /repo/.git/worktrees/feature1"),
    ("/repo/.git/worktrees/feature1", .dir),
    ("/repo/.git/worktrees/feature1/HEAD", .file "ref: refs/heads/feature1\n"),
    ("/repo/.git/refs/heads/feature1",
      .file "1111222233334444555566667777888899990000\n"),
    ("/repo/.git/config",
      .file "[remote \"origin\"]\n\turl = https://github.com/acme/widget.git\n") ]

def entryC1 : GlobalWorktreeEntry :=
  { repositoryURL := "https://github.com/acme/widget.git",
    repositoryInfo := some ⟨"github.com", "acme", "widget", "github.com/acme/widget"⟩,
    branch := "feature1", path := "/wt/feature1",
    commitHash := "1111222233334444555566667777888899990000",
    isMain := false, displayPath := "", loaded := true }

/-- C1: on the Scenario C snapshot, fast extraction succeeds with branch
`feature1`, the origin URL, and the parsed `{github.com, acme, widget}`
triple; and the full extractor returns that entry for every git oracle — the
result does not consult the external binary. -/
theorem C1_fast_extraction_scenario :
    readWorktreeDetailsFast fastFS "/wt/feature1" =
      .ok ("https://github.com/acme/widget.git",
        some ⟨"github.com", "acme", "widget", "github.com/acme/widget"⟩,
        "feature1", "1111222233334444555566667777888899990000") ∧
    ∀ git : GitRunner,
      extractWorktreeInfoWithFallback ⟨fastFS, git⟩ "/wt/feature1" = .ok entryC1 := by
  constructor
  · rfl
  · intro git
    rfl

/-! ## Claim C5: a config without the origin section -/

/-- Snapshot identical to Scenario C except the config has no
`[remote "origin"]` section (and no includes). -/
def noOriginFS : GoFS :=
  [ ("/wt2/feature2", .dir),
    ("/wt2/feature2/.git", .file "gitdir: /repo2/.git/worktrees/feature2"),
    ("/repo2/.git/worktrees/feature2", .dir),
    ("/repo2/.git/worktrees/feature2/HEAD", .file "ref: refs/heads/feature2\n"),
    ("/repo2/.git/refs/heads/feature2",
      .file "aaaabbbbccccddddeeeeffff00001111222233330000\n"),
    ("/repo2/.git/config", .file "[core]\n\trepositoryformatversion = 0\n") ]

/-- A git oracle with recognizable answers, used to observe that the
fallback path (the external binary) is what produces the final entry. -/
def probeGit : GitRunner :=
  { repoURL := fun _ => .error (.other "no remote"),
    currentBranch := fun _ => .ok "feature2\n",
    currentCommit := fun _ => .ok "aaaabbbbccccddddeeeeffff0000111122223333\n" }

def noOriginEnv : Env := ⟨noOriginFS, probeGit⟩

/-- Counterexample for C5: with every other step of fast extraction healthy
but no origin section in the config, the fast path does not succeed with an
empty URL — it returns the `origin remote not found` error, and the caller's
entry comes from the git oracle (the external binary). -/
theorem C5_counterexample :
    readWorktreeDetailsFast noOriginFS "/wt2/feature2" =
      .error (.other "origin remote not found") ∧
    extractWorktreeInfoWithFallback noOriginEnv "/wt2/feature2" =
      .ok { repositoryURL := "", repositoryInfo := none, branch := "feature2",
            path := "/wt2/feature2",
            commitHash := "aaaabbbbccccddddeeeeffff0000111122223333",
            isMain := false, displayPath := "", loaded := true } := by
  constructor
  · rfl
  · rfl

/-- C5 (amended): whenever the fast path fails — in particular with the
`origin remote not found` error produced by a config lacking the origin
section — the caller falls back to the external binary; the fast path never
reports "no URL available". -/
theorem C5_missing_origin_falls_back (env : Env) (p : String) (e : GoErr)
    (hfast : readWorktreeDetailsFast env.fs p = .error e) :
    extractWorktreeInfoWithFallback env p = extractWorktreeInfo env p := by
  unfold extractWorktreeInfoWithFallback
  rw [hfast]

/-- Witness for the amended C5 at the concrete no-origin snapshot. -/
theorem C5_missing_origin_falls_back_witness :
    extractWorktreeInfoWithFallback noOriginEnv "/wt2/feature2" =
      extractWorktreeInfo noOriginEnv "/wt2/feature2" :=
  C5_missing_origin_falls_back noOriginEnv "/wt2/feature2"
    (.other "origin remote not found") rfl

/-! ## The path classifier -/

/-- Embeds `isWorktreeDir`: classify a visited directory entry.  Returns
`(isWorktree, skipDir)`.  `dName`/`dIsDir` are the walker's `fs.DirEntry`
data (lstat-based, symlinks not reported as directories). -/
def isWorktreeDir (fs : GoFS) (path : String) (dName : String) (dIsDir : Bool) :
    Bool × Bool :=
  if !dIsDir then (false, false)
  else if dName == ".git" then (false, true)
  else
    let gitFile := goJoin path ".git"
    match goLstat fs gitFile with
    | .error _ => (false, false)
    | .ok .dirK => (false, true)
    | .ok .symlinkK =>
      match goStat fs gitFile with
      | .error _ => (false, true)
      | .ok .dirK => (false, true)
      | .ok _ =>
        match goReadFile fs gitFile with
        | .error _ => (false, false)
        | .ok gitContent =>
          if strStartsWith (strTrimSpace gitContent) "gitdir:" then (true, true)
          else (false, false)
    | .ok .regularK =>
      match goReadFile fs gitFile with
      | .error _ => (false, false)
      | .ok gitContent =>
        if strStartsWith (strTrimSpace gitContent) "gitdir:" then (true, true)
        else (false, false)
    | .ok .otherK => (false, false)

/-- A directory whose `.git` child is a symbolic link that cannot be
resolved. -/
def brokenLinkFS : GoFS :=
  [ ("/b/x", .dir),
    ("/b/x/.git", .symlink .broken) ]

/-- Counterexample for C6: for a `.git` child that is an unresolvable
symbolic link, the classifier returns `(not a worktree, PRUNE)` — it does not
keep walking as the claim states. -/
theorem C6_counterexample :
    isWorktreeDir brokenLinkFS "/b/x" "x" true = (false, true) ∧
    ((false, true) : Bool × Bool) ≠ (false, false) := by
  exact ⟨rfl, by decide⟩

/-- C6 (amended): when the `.git` child cannot even be lstat-ed the
classifier keeps walking, but an unresolvable symbolic link (lstat succeeds,
resolution fails) is pruned "to be safe". -/
theorem C6_unreadable_git_child :
    (∀ (fs : GoFS) (path dName : String) (e : GoErr), dName ≠ ".git" →
      goLstat fs (goJoin path ".git") = .error e →
      isWorktreeDir fs path dName true = (false, false)) ∧
    (∀ (fs : GoFS) (path dName : String), dName ≠ ".git" →
      lookupFS fs (goJoin path ".git") = some (.symlink .broken) →
      isWorktreeDir fs path dName true = (false, true)) := by
  constructor
  · intro fs path dName e hname hstat
    have hname2 : (dName == ".git") = false := by
      simp [hname]
    simp [isWorktreeDir, hname2, hstat]
  · intro fs path dName hname hlook
    have hname2 : (dName == ".git") = false := by
      simp [hname]
    simp [isWorktreeDir, hname2, goLstat, goStat, hlook]

/-- Witness for the amended C6 on two concrete snapshots: a permission-denied
`.git` child (keep walking) and a broken symlink (prune). -/
theorem C6_unreadable_git_child_witness :
    isWorktreeDir [("/c/y", .dir), ("/c/y/.git", .inaccessible)] "/c/y" "y" true =
      (false, false) ∧
    isWorktreeDir brokenLinkFS "/b/x" "x" true = (false, true) := by
  constructor
  · exact C6_unreadable_git_child.1 [("/c/y", .dir), ("/c/y/.git", .inaccessible)]
      "/c/y" "y" (.other "permission denied: /c/y/.git") (by decide) rfl
  · exact C6_unreadable_git_child.2 brokenLinkFS "/b/x" "x" (by decide) rfl

/-! ## Worker-count configuration -/

/-- Embeds `DiscoverOptions`. -/
structure DiscoverOptions where
  maxWorkers : Int
  lazy : Bool
  deriving Repr

/-- Ambient process facts read by `getMaxWorkers`: `runtime.NumCPU()` and the
value of the environment variable `GWQ_DISCOVERY_WORKERS` (empty when
unset). -/
structure SysEnv where
  numCPU : Nat
  gwqDiscoveryWorkers : String
  deriving Repr

/-- Decimal digit accumulation for the `strconv.Atoi` model. -/
def digitsValGo : List Char → Nat → Option Nat
  | [], acc => some acc
  | c :: cs, acc =>
    if '0' ≤ c && c ≤ '9' then digitsValGo cs (acc * 10 + (c.toNat - '0'.toNat))
    else none

/-- Model of `strconv.Atoi`: an optional sign followed by at least one
decimal digit.  The 64-bit range check is not modelled; worker counts are far
below it. -/
def goAtoi (s : String) : Option Int :=
  match s.data with
  | [] => none
  | '+' :: rest => if rest = [] then none else (digitsValGo rest 0).map (fun n => (n : Int))
  | '-' :: rest => if rest = [] then none else (digitsValGo rest 0).map (fun n => -(n : Int))
  | l => (digitsValGo l 0).map (fun n => (n : Int))

/-- Embeds `getMaxWorkers`: default `min(NumCPU, 4)`, overridden by a
positive `opts.MaxWorkers`, overridden in turn by a positive integer in
`GWQ_DISCOVERY_WORKERS`. -/
def getMaxWorkers (sys : SysEnv) (opts : Option DiscoverOptions) : Int :=
  let maxWorkers : Int := min (sys.numCPU : Int) 4
  let maxWorkers :=
    match opts with
    | some o => if o.maxWorkers > 0 then o.maxWorkers else maxWorkers
    | none => maxWorkers
  if sys.gwqDiscoveryWorkers != "" then
    match goAtoi sys.gwqDiscoveryWorkers with
    | some n => if n > 0 then n else maxWorkers
    | none => maxWorkers
  else maxWorkers

/-- C9: a positive integer in `GWQ_DISCOVERY_WORKERS` determines the pool
size even when the options carry a positive `MaxWorkers`; a positive
`MaxWorkers` applies when the environment gives no positive integer; the
default `min(NumCPU, 4)` applies only when neither is given. -/
theorem C9_worker_count_precedence :
    (∀ (sys : SysEnv) (opts : Option DiscoverOptions) (n : Int),
      goAtoi sys.gwqDiscoveryWorkers = some n → 0 < n →
      getMaxWorkers sys opts = n) ∧
    (∀ (sys : SysEnv) (o : DiscoverOptions),
      0 < o.maxWorkers →
      (∀ n : Int, goAtoi sys.gwqDiscoveryWorkers = some n → ¬ 0 < n) →
      getMaxWorkers sys (some o) = o.maxWorkers) ∧
    (∀ (sys : SysEnv) (opts : Option DiscoverOptions),
      (∀ o : DiscoverOptions, opts = some o → ¬ 0 < o.maxWorkers) →
      (∀ n : Int, goAtoi sys.gwqDiscoveryWorkers = some n → ¬ 0 < n) →
      getMaxWorkers sys opts = min (sys.numCPU : Int) 4) := by
  refine ⟨fun sys opts n hatoi hpos => ?_, fun sys o hopt henv => ?_,
    fun sys opts hopt henv => ?_⟩
  · have hne : (sys.gwqDiscoveryWorkers != "") = true := by
      by_cases hemp : sys.gwqDiscoveryWorkers = ""
      · rw [hemp] at hatoi
        rw [show goAtoi "" = none from rfl] at hatoi
        cases hatoi
      · simp [hemp]
    simp [getMaxWorkers, hne, hatoi, hpos]
  · by_cases hne : sys.gwqDiscoveryWorkers = ""
    · simp [getMaxWorkers, hne, hopt]
    · have hne2 : (sys.gwqDiscoveryWorkers != "") = true := by
        simp [hne]
      rcases hatoi : goAtoi sys.gwqDiscoveryWorkers with _ | n
      · simp [getMaxWorkers, hne2, hatoi, hopt]
      · have := henv n hatoi
        simp [getMaxWorkers, hne2, hatoi, this, hopt]
  · by_cases hne : sys.gwqDiscoveryWorkers = ""
    · rcases opts with _ | o
      · simp [getMaxWorkers, hne]
      · have := hopt o rfl
        simp [getMaxWorkers, hne, this]
    · have hne2 : (sys.gwqDiscoveryWorkers != "") = true := by
        simp [hne]
      rcases opts with _ | o
      · rcases hatoi : goAtoi sys.gwqDiscoveryWorkers with _ | n
        · simp [getMaxWorkers, hne2, hatoi]
        · have := henv n hatoi
          simp [getMaxWorkers, hne2, hatoi, this]
      · have ho := hopt o rfl
        rcases hatoi : goAtoi sys.gwqDiscoveryWorkers with _ | n
        · simp [getMaxWorkers, hne2, hatoi, ho]
        · have := henv n hatoi
          simp [getMaxWorkers, hne2, hatoi, this, ho]

/-- Witness for C9 at concrete inputs: env wins over explicit options; the
explicit option wins when the env value is not a positive integer; the
default applies when neither is given. -/
theorem C9_worker_count_precedence_witness :
    getMaxWorkers ⟨8, "3"⟩ (some ⟨7, false⟩) = 3 ∧
    getMaxWorkers ⟨8, "0"⟩ (some ⟨7, false⟩) = 7 ∧
    getMaxWorkers ⟨8, ""⟩ none = 4 := by
  refine ⟨?_, ?_, ?_⟩
  · exact C9_worker_count_precedence.1 ⟨8, "3"⟩ (some ⟨7, false⟩) 3 (by decide) (by decide)
  · exact C9_worker_count_precedence.2.1 ⟨8, "0"⟩ ⟨7, false⟩ (by decide)
      (by intro n h; simp [goAtoi, digitsValGo] at h; omega)
  · exact C9_worker_count_precedence.2.2 ⟨8, ""⟩ none
      (by intro o h; cases h)
      (by intro n h; simp [goAtoi] at h)

/-! ## The filesystem walker -/

/-- Lexicographic order on character lists, for directory listing order. -/
def listLe : List Char → List Char → Bool
  | [], _ => true
  | _ :: _, [] => false
  | a :: as, b :: bs => if a == b then listLe as bs else decide (a < b)

def insertName (a : String) : List String → List String
  | [] => [a]
  | b :: bs => if listLe a.data b.data then a :: b :: bs else b :: insertName a bs

/-- Sort names lexically, as `os.ReadDir` returns entries. -/
def sortNames : List String → List String
  | [] => []
  | a :: as => insertName a (sortNames as)

/-- The name under which `q` is a direct child of directory `p`, if it is. -/
def childNameOf (p q : String) : Option String :=
  if strStartsWith q (p ++ "/") then
    let rest := q.data.drop (p.data.length + 1)
    if rest ≠ [] && rest.all (fun c => c ≠ '/') then some ⟨rest⟩ else none
  else none

/-- Model of `os.ReadDir` restricted to names: the sorted direct children of
`p` present in the snapshot.  A directory whose listing fails is modelled as
having no children (the walker logs and continues either way). -/
def readDirNames (fs : GoFS) (p : String) : List String :=
  sortNames (fs.filterMap (fun e => childNameOf p e.1))

/-- The `fs.DirEntry.IsDir` bit of a child (lstat-based: a symlink is not a
directory). -/
def entryIsDir (fs : GoFS) (p : String) : Bool :=
  lookupFS fs p == some .dir

/-- The path-collecting walk over `filepath.WalkDir` (the body shared by
`collectWorktreePaths` and the pipeline's producer): record a classified
worktree and prune it, prune where the classifier says so, recurse into
remaining directories.  Fuel bounds the recursion depth; every descent moves
to a strictly longer path bound in the snapshot, so `fs.length + 1` steps
suffice. -/
def collectWalk (fs : GoFS) : Nat → String → String → Bool → List String
  | 0, _, _, _ => []
  | fuel + 1, path, dName, dIsDir =>
    match isWorktreeDir fs path dName dIsDir with
    | (true, _) => [path]
    | (false, skipDir) =>
      if skipDir then []
      else if !dIsDir then []
      else (readDirNames fs path).flatMap fun n =>
        collectWalk fs fuel (goJoin path n) n (entryIsDir fs (goJoin path n))

/-- Embeds `collectWorktreePaths`: `filepath.WalkDir` from the base
directory.  A failing root lstat reaches the callback as an error, which it
swallows, yielding no candidates. -/
def collectWorktreePaths (fs : GoFS) (baseDir : String) : List String :=
  match goLstat fs baseDir with
  | .error _ => []
  | .ok k => collectWalk fs (fs.length + 1) baseDir (goBase baseDir) (k == .dirK)

/-- Model of `filepath.Rel` for a path lying under (or equal to) the base;
the walker only computes display paths in that regime. -/
def goRel (base p : String) : String :=
  if p == base then "."
  else if strStartsWith p (base ++ "/") then ⟨p.data.drop (base.data.length + 1)⟩
  else p

/-- Embeds `expandBaseDir`.  `utils.ExpandPath` is modelled as the identity:
the claims quantify over already-absolute paths containing no environment
variables and no tilde. -/
def expandBaseDir (fs : GoFS) (baseDir : String) : Except GoErr String :=
  if baseDir == "" then .error (.other "base directory not configured")
  else
    let expandedPath := baseDir
    match goStat fs expandedPath with
    | .error .notExist => .ok ""
    | .error (.other m) => .error (.other ("failed to stat base directory: " ++ m))
    | .ok .dirK => .ok expandedPath
    | .ok _ => .error (.other ("base directory path is not a directory: " ++ expandedPath))

/-! ## The serial discovery strategy -/

/-- The serial walk of `DiscoverGlobalWorktrees`: classification and
extraction are interleaved; a successfully extracted entry gets the
base-relative display path; a failed extraction is logged and skipped (the
subtree is pruned either way). -/
def serialWalk (env : Env) (rootDir : String) :
    Nat → String → String → Bool → List GlobalWorktreeEntry
  | 0, _, _, _ => []
  | fuel + 1, path, dName, dIsDir =>
    match isWorktreeDir env.fs path dName dIsDir with
    | (true, _) =>
      match extractWorktreeInfoWithFallback env path with
      | .error _ => []
      | .ok entry => [{ entry with displayPath := goRel rootDir path }]
    | (false, skipDir) =>
      if skipDir then []
      else if !dIsDir then []
      else (readDirNames env.fs path).flatMap fun n =>
        serialWalk env rootDir fuel (goJoin path n) n (entryIsDir env.fs (goJoin path n))

/-- Embeds `DiscoverGlobalWorktrees` (the serial strategy).  The walk
callback only ever returns nil or SkipDir, so the post-walk error check never
fires: discovery fails only on a structural base-directory problem. -/
def DiscoverGlobalWorktrees (env : Env) (baseDir : String) :
    Except GoErr (List GlobalWorktreeEntry) :=
  match expandBaseDir env.fs baseDir with
  | .error e => .error e
  | .ok expandedDir =>
    if expandedDir == "" then .ok []
    else
      .ok (match goLstat env.fs expandedDir with
        | .error _ => []
        | .ok k =>
          serialWalk env expandedDir (env.fs.length + 1) expandedDir
            (goBase expandedDir) (k == .dirK))

/-! ## Worker-pool and pipeline strategies -/

/-- Embeds `filterNilEntries`. -/
def filterNilEntries : List (Option GlobalWorktreeEntry) → List GlobalWorktreeEntry
  | [] => []
  | none :: rest => filterNilEntries rest
  | some e :: rest => e :: filterNilEntries rest

/-- Embeds `extractWorktreeInfoWithWorkerPool`: workers drain a job queue and
write into disjoint pre-sized result slots; extraction is a pure function of
the snapshot, so slot `i` holds the extraction of `paths[i]` (or stays nil on
failure) regardless of the schedule or of `maxWorkers`; nil slots are
filtered out in index order. -/
def extractWorktreeInfoWithWorkerPool (env : Env) (paths : List String)
    (maxWorkers : Nat) : List GlobalWorktreeEntry :=
  filterNilEntries (paths.map (fun p => (extractWorktreeInfoWithFallback env p).toOption))

/-- Embeds `DiscoverGlobalWorktreesLazy`: collect paths only and return lazy
entries (only `path` and `isMain` set, details unloaded). -/
def DiscoverGlobalWorktreesLazy (env : Env) (baseDir : String) :
    Except GoErr (List GlobalWorktreeEntry) :=
  match expandBaseDir env.fs baseDir with
  | .error e => .error e
  | .ok expandedDir =>
    if expandedDir == "" then .ok []
    else
      .ok ((collectWorktreePaths env.fs expandedDir).map (fun path =>
        { repositoryURL := "", repositoryInfo := none, branch := "", path := path,
          commitHash := "", isMain := false, displayPath := "", loaded := false }))

/-- Embeds `DiscoverGlobalWorktreesParallel` (the worker-pool strategy):
collect candidate paths, then extract them with the pool. -/
def DiscoverGlobalWorktreesParallel (env : Env) (sys : SysEnv) (baseDir : String)
    (opts : Option DiscoverOptions) : Except GoErr (List GlobalWorktreeEntry) :=
  if (opts.map (·.lazy)).getD false then
    DiscoverGlobalWorktreesLazy env baseDir
  else
    match expandBaseDir env.fs baseDir with
    | .error e => .error e
    | .ok expandedDir =>
      if expandedDir == "" then .ok []
      else
        let worktreePaths := collectWorktreePaths env.fs expandedDir
        if worktreePaths.length == 0 then .ok []
        else .ok (extractWorktreeInfoWithWorkerPool env worktreePaths
          (getMaxWorkers sys opts).toNat)

/-- Embeds `DiscoverGlobalWorktreesPipeline`: the producer pushes worktree
paths as the walk finds them, a worker pool extracts, a single collector
appends completed entries.  Extraction is pure, so the collected multiset is
schedule-independent; the embedding fixes the collector order to walk
order, which no claim about the (unordered) result distinguishes. -/
def DiscoverGlobalWorktreesPipeline (env : Env) (sys : SysEnv) (baseDir : String)
    (opts : Option DiscoverOptions) : Except GoErr (List GlobalWorktreeEntry) :=
  match expandBaseDir env.fs baseDir with
  | .error e => .error e
  | .ok expandedDir =>
    if expandedDir == "" then .ok []
    else
      .ok ((collectWorktreePaths env.fs expandedDir).filterMap
        (fun p => (extractWorktreeInfoWithFallback env p).toOption))

/-! ## Claim C7: structural base-directory errors -/

lemma listStartsWith_append (l r sub : List Char)
    (h : listStartsWith l sub = true) : listStartsWith (l ++ r) sub = true := by
  induction sub generalizing l with
  | nil => simp [listStartsWith]
  | cons b bs ih =>
    cases l with
    | nil => simp [listStartsWith] at h
    | cons a as =>
      simp only [listStartsWith, Bool.and_eq_true] at h
      simp only [List.cons_append, listStartsWith, Bool.and_eq_true]
      exact ⟨h.1, ih as h.2⟩

lemma listContainsSub_append (l r sub : List Char)
    (h : listContainsSub l sub = true) : listContainsSub (l ++ r) sub = true := by
  induction l with
  | nil =>
    simp only [listContainsSub] at h
    rcases hsw : listStartsWith ([] : List Char) sub with _ | _
    · rw [hsw] at h
      simp at h
    · cases sub with
      | nil =>
        unfold listContainsSub
        cases hrw : listStartsWith r [] with
        | false => simp [listStartsWith] at hrw
        | true => simp [hrw]
      | cons b bs => simp [listStartsWith] at hsw
  | cons a as ih =>
    unfold listContainsSub at h ⊢
    rcases hsw : listStartsWith (a :: as) sub with _ | _
    · rw [hsw] at h
      simp only [if_false, Bool.false_eq_true, if_neg Bool.false_ne_true] at h
      have h2 := ih h
      rcases hsw2 : listStartsWith (a :: as ++ r) sub with _ | _
      · simpa [hsw2] using h2
      · simp [hsw2]
    · have := listStartsWith_append (a :: as) r sub hsw
      simp [List.cons_append] at this ⊢
      simp [this]

/-- The "not a directory" error message always mentions "not a directory". -/
lemma notDirMsg_contains (b : String) :
    strContains ("base directory path is not a directory: " ++ b) "not a directory" = true := by
  obtain ⟨bl⟩ := b
  have h : listContainsSub ("base directory path is not a directory: ").data
      ("not a directory").data = true := by decide
  have h2 := listContainsSub_append ("base directory path is not a directory: ").data
    bl ("not a directory").data h
  exact h2

/-- A git oracle in which every query fails (the external binary is
unavailable). -/
def failGit : GitRunner :=
  { repoURL := fun _ => .error .notExist,
    currentBranch := fun _ => .error .notExist,
    currentCommit := fun _ => .error .notExist }

def emptyEnv : Env := ⟨[], failGit⟩

def fileBaseEnv : Env := ⟨[("/f", .file "x")], failGit⟩

def dirBaseEnv : Env := ⟨[("/d", .dir)], failGit⟩

/-- C7: a missing base directory yields an empty list and no error; a base
path that is a regular file yields an error mentioning "not a directory"; and
whenever the base expands to an existing directory, discovery returns
successfully — per-entry failures never surface as this error. -/
theorem C7_base_directory_errors :
    (∀ (env : Env) (baseDir : String), baseDir ≠ "" →
      lookupFS env.fs baseDir = none →
      DiscoverGlobalWorktrees env baseDir = .ok []) ∧
    (∀ (env : Env) (baseDir c : String), baseDir ≠ "" →
      lookupFS env.fs baseDir = some (.file c) →
      DiscoverGlobalWorktrees env baseDir =
        .error (.other ("base directory path is not a directory: " ++ baseDir)) ∧
      strContains ("base directory path is not a directory: " ++ baseDir)
        "not a directory" = true) ∧
    (∀ (env : Env) (baseDir : String), baseDir ≠ "" →
      goStat env.fs baseDir = .ok .dirK →
      ∃ entries, DiscoverGlobalWorktrees env baseDir = .ok entries) := by
  refine ⟨fun env baseDir hne hlook => ?_, fun env baseDir c hne hlook => ?_,
    fun env baseDir hne hstat => ?_⟩
  · have hne2 : (baseDir == "") = false := by simp [hne]
    simp [DiscoverGlobalWorktrees, expandBaseDir, goStat, hlook, hne2]
  · have hne2 : (baseDir == "") = false := by simp [hne]
    refine ⟨?_, notDirMsg_contains baseDir⟩
    simp [DiscoverGlobalWorktrees, expandBaseDir, goStat, hlook, hne2]
  · have hne2 : (baseDir == "") = false := by simp [hne]
    by_cases hbd : baseDir = ""
    · exact absurd hbd hne
    · refine ⟨(match goLstat env.fs baseDir with
        | .error _ => []
        | .ok k =>
          serialWalk env baseDir (env.fs.length + 1) baseDir (goBase baseDir)
            (k == .dirK)), ?_⟩
      simp [DiscoverGlobalWorktrees, expandBaseDir, hstat, hne2, hbd]

/-- Witness for C7 on three tiny snapshots: missing base, file base,
directory base. -/
theorem C7_base_directory_errors_witness :
    DiscoverGlobalWorktrees emptyEnv "/nope" = .ok [] ∧
    (DiscoverGlobalWorktrees fileBaseEnv "/f" =
        .error (.other ("base directory path is not a directory: " ++ "/f")) ∧
      strContains ("base directory path is not a directory: " ++ "/f")
        "not a directory" = true) ∧
    ∃ entries, DiscoverGlobalWorktrees dirBaseEnv "/d" = .ok entries := by
  refine ⟨?_, ?_, ?_⟩
  · exact C7_base_directory_errors.1 emptyEnv "/nope" (by decide) rfl
  · exact C7_base_directory_errors.2.1 fileBaseEnv "/f" "x" (by decide) rfl
  · exact C7_base_directory_errors.2.2 dirBaseEnv "/d" (by decide) rfl

/-! ## Claim C2: the three strategies agree -/

/-- Clear the display-path field (the only field the strategies set
differently). -/
def clearDisplayPath (e : GlobalWorktreeEntry) : GlobalWorktreeEntry :=
  { e with displayPath := "" }

lemma filterNilEntries_eq_filterMap (l : List (Option GlobalWorktreeEntry)) :
    filterNilEntries l = l.filterMap id := by
  induction l with
  | nil => rfl
  | cons a as ih =>
    cases a with
    | none => simpa [filterNilEntries] using ih
    | some e => simpa [filterNilEntries] using ih

lemma workerPool_eq_filterMap (env : Env) (paths : List String) (w : Nat) :
    extractWorktreeInfoWithWorkerPool env paths w =
      paths.filterMap (fun p => (extractWorktreeInfoWithFallback env p).toOption) := by
  unfold extractWorktreeInfoWithWorkerPool
  rw [filterNilEntries_eq_filterMap, List.filterMap_map]
  rfl

lemma filterMap_flatMap_aux {α β γ : Type} (l : List α) (f : α → List β)
    (g : β → Option γ) :
    (l.flatMap f).filterMap g = l.flatMap (fun a => (f a).filterMap g) := by
  induction l with
  | nil => rfl
  | cons a as ih => simp [List.flatMap_cons, List.filterMap_append, ih]

/-- The serial walk's entries are exactly the collected candidate paths,
extracted and given their base-relative display path. -/
lemma serialWalk_eq_collectWalk (env : Env) (rootDir : String) :
    ∀ (fuel : Nat) (path dName : String) (dIsDir : Bool),
      serialWalk env rootDir fuel path dName dIsDir =
        (collectWalk env.fs fuel path dName dIsDir).filterMap
          (fun p => ((extractWorktreeInfoWithFallback env p).toOption).map
            (fun e => { e with displayPath := goRel rootDir p })) := by
  intro fuel
  induction fuel with
  | zero => intro path dName dIsDir; rfl
  | succ fuel ih =>
    intro path dName dIsDir
    rw [serialWalk, collectWalk]
    rcases hcls : isWorktreeDir env.fs path dName dIsDir with ⟨iw, skip⟩
    cases iw with
    | true =>
      rcases hext : extractWorktreeInfoWithFallback env path with e | entry
      · simp [hext, Except.toOption]
      · simp [hext, Except.toOption, List.filterMap_cons]
    | false =>
      cases skip with
      | true => simp
      | false =>
        cases dIsDir with
        | false => simp
        | true =>
          simp only [Bool.not_true, Bool.false_eq_true, if_false, if_neg]
          rw [filterMap_flatMap_aux]
          congr 1
          funext n
          exact ih (goJoin path n) n (entryIsDir env.fs (goJoin path n))

/-- The specification shared by all three strategies: collect the candidate
paths, extract each, drop the failures. -/
def strategyCore (env : Env) (baseDir : String) :
    Except GoErr (List GlobalWorktreeEntry) :=
  match expandBaseDir env.fs baseDir with
  | .error e => .error e
  | .ok expandedDir =>
    if expandedDir == "" then .ok []
    else
      .ok ((collectWorktreePaths env.fs expandedDir).filterMap
        (fun p => (extractWorktreeInfoWithFallback env p).toOption))

lemma discover_pipeline_eq_core (env : Env) (sys : SysEnv) (baseDir : String)
    (opts : Option DiscoverOptions) :
    DiscoverGlobalWorktreesPipeline env sys baseDir opts = strategyCore env baseDir := rfl

lemma discover_workerPool_eq_core (env : Env) (sys : SysEnv) (baseDir : String)
    (w : Int) :
    DiscoverGlobalWorktreesParallel env sys baseDir (some ⟨w, false⟩) =
      strategyCore env baseDir := by
  unfold DiscoverGlobalWorktreesParallel strategyCore
  rw [show ((some (⟨w, false⟩ : DiscoverOptions)).map (·.lazy)).getD false = false from rfl]
  simp only [Bool.false_eq_true, if_false]
  rcases hexp : expandBaseDir env.fs baseDir with e | d
  · rfl
  · by_cases hd : d = ""
    · subst hd
      rfl
    · have hd2 : (d == "") = false := by simp [hd]
      simp only [hd2, Bool.false_eq_true, if_false]
      rcases hP : collectWorktreePaths env.fs d with _ | ⟨p, ps⟩
      · simp
      · simp [workerPool_eq_filterMap]

lemma discover_serial_project {α : Type} (env : Env) (baseDir : String)
    (g : GlobalWorktreeEntry → α)
    (hg : ∀ (e : GlobalWorktreeEntry) (r : String), g { e with displayPath := r } = g e) :
    (DiscoverGlobalWorktrees env baseDir).map (List.map g) =
      (strategyCore env baseDir).map (List.map g) := by
  unfold DiscoverGlobalWorktrees strategyCore
  rcases hexp : expandBaseDir env.fs baseDir with e | d
  · rfl
  · by_cases hd : d = ""
    · subst hd
      rfl
    · have hd2 : (d == "") = false := by simp [hd]
      simp only [hd2, Bool.false_eq_true, if_false, Except.map]
      rcases hls : goLstat env.fs d with e2 | k
      · have hpaths : collectWorktreePaths env.fs d = [] := by
          unfold collectWorktreePaths
          rw [hls]
        simp [hpaths]
      · have hpaths : collectWorktreePaths env.fs d =
            collectWalk env.fs (env.fs.length + 1) d (goBase d) (k == .dirK) := by
          unfold collectWorktreePaths
          rw [hls]
        show Except.ok (List.map g (serialWalk env d (env.fs.length + 1) d (goBase d)
            (k == FileKind.dirK))) =
          Except.ok (List.map g ((collectWorktreePaths env.fs d).filterMap
            (fun p => (extractWorktreeInfoWithFallback env p).toOption)))
        rw [hpaths, serialWalk_eq_collectWalk env d]
        rw [List.map_filterMap, List.map_filterMap]
        have hfun : ∀ p : String,
            Option.map g (Option.map
              (fun e => { e with displayPath := goRel d p })
              (extractWorktreeInfoWithFallback env p).toOption) =
            Option.map g (extractWorktreeInfoWithFallback env p).toOption := by
          intro p
          rw [Option.map_map]
          rcases (extractWorktreeInfoWithFallback env p).toOption with _ | e3
          · rfl
          · show some (g { e3 with displayPath := goRel d p }) = some (g e3)
            rw [hg e3 (goRel d p)]
        exact congrArg
          (fun f => Except.ok (List.filterMap f
            (collectWalk env.fs (env.fs.length + 1) d (goBase d) (k == FileKind.dirK))))
          (funext hfun)

/-- C2 (amended): over the same snapshot the serial, worker-pool and pipeline
strategies return the same entries up to the display-path field (which only
the serial strategy populates) — in particular the same paths, branches,
commits and URLs, with failed extractions dropped identically. -/
theorem C2_strategies_agree_modulo_display (env : Env) (sys : SysEnv)
    (baseDir : String) (w : Int) :
    (DiscoverGlobalWorktrees env baseDir).map (List.map clearDisplayPath) =
      (DiscoverGlobalWorktreesParallel env sys baseDir (some ⟨w, false⟩)).map
        (List.map clearDisplayPath) ∧
    DiscoverGlobalWorktreesParallel env sys baseDir (some ⟨w, false⟩) =
      DiscoverGlobalWorktreesPipeline env sys baseDir (some ⟨w, false⟩) ∧
    (DiscoverGlobalWorktrees env baseDir).map
        (List.map GlobalWorktreeEntry.path) =
      (DiscoverGlobalWorktreesPipeline env sys baseDir (some ⟨w, false⟩)).map
        (List.map GlobalWorktreeEntry.path) := by
  refine ⟨?_, ?_, ?_⟩
  · rw [discover_workerPool_eq_core env sys baseDir w]
    exact discover_serial_project env baseDir clearDisplayPath (fun e r => rfl)
  · rw [discover_workerPool_eq_core env sys baseDir w,
      discover_pipeline_eq_core env sys baseDir (some ⟨w, false⟩)]
  · rw [discover_pipeline_eq_core env sys baseDir (some ⟨w, false⟩)]
    exact discover_serial_project env baseDir GlobalWorktreeEntry.path (fun e r => rfl)

/-- Counterexample for C2 as literally stated: on a snapshot with one
worktree, the serial strategy's entry carries the base-relative display path
while the worker-pool and pipeline entries carry an empty one, so the sets of
returned entries differ. -/
theorem C2_counterexample :
    DiscoverGlobalWorktrees ⟨fastFS, failGit⟩ "/wt" =
      .ok [{ entryC1 with displayPath := "feature1" }] ∧
    DiscoverGlobalWorktreesParallel ⟨fastFS, failGit⟩ ⟨4, ""⟩ "/wt" (some ⟨4, false⟩) =
      .ok [entryC1] ∧
    DiscoverGlobalWorktreesPipeline ⟨fastFS, failGit⟩ ⟨4, ""⟩ "/wt" (some ⟨4, false⟩) =
      .ok [entryC1] ∧
    ({ entryC1 with displayPath := "feature1" } : GlobalWorktreeEntry) ≠ entryC1 := by
  refine ⟨rfl, rfl, rfl, by decide⟩

/-! ## Claim C8: the multi-source aggregator -/

/-- Embeds `addUniqueEntries`: append entries whose path has not been seen,
recording each appended path.  The Go `seen map[string]bool` is modelled as
the list of paths marked true. -/
def addUniqueEntries :
    List GlobalWorktreeEntry → List String → List GlobalWorktreeEntry →
      List GlobalWorktreeEntry × List String
  | allEntries, seen, [] => (allEntries, seen)
  | allEntries, seen, entry :: rest =>
    if seen.contains entry.path then addUniqueEntries allEntries seen rest
    else addUniqueEntries (allEntries ++ [entry]) (entry.path :: seen) rest

/-- The configuration facts `DiscoverAllWorktrees` reads. -/
structure Config where
  ghqEnabled : Bool
  worktreeBaseDir : String

/-- Embeds `DiscoverAllWorktrees`: aggregate the ghq source (an external
process integration, §6, hence passed as its result value) and the basedir
source, deduplicating by path; a failed source contributes nothing. -/
def DiscoverAllWorktrees (env : Env)
    (ghqSource : Except GoErr (List GlobalWorktreeEntry)) (cfg : Config) :
    List GlobalWorktreeEntry :=
  let acc0 : List GlobalWorktreeEntry × List String := ([], [])
  let acc1 :=
    if cfg.ghqEnabled then
      match ghqSource with
      | .error _ => acc0
      | .ok ghqEntries => addUniqueEntries acc0.1 acc0.2 ghqEntries
    else acc0
  let acc2 :=
    if cfg.worktreeBaseDir != "" then
      match DiscoverGlobalWorktrees env cfg.worktreeBaseDir with
      | .error _ => acc1
      | .ok basedirEntries => addUniqueEntries acc1.1 acc1.2 basedirEntries
    else acc1
  acc2.1

/-- First-occurrence deduplication by path, the specification
`addUniqueEntries` computes. -/
def dedupByPath (seen : List String) : List GlobalWorktreeEntry → List GlobalWorktreeEntry
  | [] => []
  | e :: rest =>
    if seen.contains e.path then dedupByPath seen rest
    else e :: dedupByPath (e.path :: seen) rest

lemma addUniqueEntries_fst (es : List GlobalWorktreeEntry) :
    ∀ (allEntries : List GlobalWorktreeEntry) (seen : List String),
      (addUniqueEntries allEntries seen es).1 = allEntries ++ dedupByPath seen es := by
  induction es with
  | nil => intro allEntries seen; simp [addUniqueEntries, dedupByPath]
  | cons e rest ih =>
    intro allEntries seen
    by_cases hc : e.path ∈ seen
    · simp [addUniqueEntries, dedupByPath, hc, ih]
    · simp [addUniqueEntries, dedupByPath, hc, ih]

lemma addUniqueEntries_append (xs ys : List GlobalWorktreeEntry) :
    ∀ (allEntries : List GlobalWorktreeEntry) (seen : List String),
      addUniqueEntries allEntries seen (xs ++ ys) =
        addUniqueEntries (addUniqueEntries allEntries seen xs).1
          (addUniqueEntries allEntries seen xs).2 ys := by
  induction xs with
  | nil => intro allEntries seen; rfl
  | cons x rest ih =>
    intro allEntries seen
    by_cases hc : x.path ∈ seen
    · simp [addUniqueEntries, hc, ih]
    · simp [addUniqueEntries, hc, ih]

lemma dedupByPath_paths_fresh (l : List GlobalWorktreeEntry) :
    ∀ seen : List String,
      ((dedupByPath seen l).map GlobalWorktreeEntry.path).Nodup ∧
      ∀ p ∈ (dedupByPath seen l).map GlobalWorktreeEntry.path, p ∉ seen := by
  induction l with
  | nil => intro seen; simp [dedupByPath]
  | cons e rest ih =>
    intro seen
    by_cases hc : e.path ∈ seen
    · simpa [dedupByPath, hc] using ih seen
    · have ih2 := ih (e.path :: seen)
      have hstep : dedupByPath seen (e :: rest) =
          e :: dedupByPath (e.path :: seen) rest := by
        simp [dedupByPath, hc]
      refine ⟨?_, ?_⟩
      · rw [hstep, List.map_cons, List.nodup_cons]
        refine ⟨fun hmem => ?_, ih2.1⟩
        exact (ih2.2 e.path hmem) (List.mem_cons_self _ _)
      · rw [hstep]
        intro p hp
        rw [List.map_cons, List.mem_cons] at hp
        rcases hp with hp | hp
        · subst hp
          exact hc
        · intro hmem
          exact (ih2.2 p hp) (List.mem_cons_of_mem _ hmem)

lemma dedupByPath_find (l : List GlobalWorktreeEntry) (p : String) :
    ∀ seen : List String,
      (dedupByPath seen l).find? (fun e => e.path == p) =
        if p ∈ seen then none else l.find? (fun e => e.path == p) := by
  induction l with
  | nil => intro seen; simp [dedupByPath]
  | cons e rest ih =>
    intro seen
    by_cases hc : e.path ∈ seen
    · rw [show dedupByPath seen (e :: rest) = dedupByPath seen rest from by
        simp [dedupByPath, hc]]
      rw [ih seen]
      by_cases hp : p ∈ seen
      · simp [hp]
      · have hne : (e.path == p) = false := by
          rcases hq : (e.path == p) with _ | _
          · rfl
          · exfalso
            have hepq : e.path = p := by simpa using hq
            rw [hepq] at hc
            exact hp hc
        simp [hp, List.find?, hne]
    · rw [show dedupByPath seen (e :: rest) = e :: dedupByPath (e.path :: seen) rest from by
        simp [dedupByPath, hc]]
      rcases hq : (e.path == p) with _ | _
      · have hepne : e.path ≠ p := by simpa using hq
        simp only [List.find?, hq]
        rw [ih (e.path :: seen)]
        by_cases hp : p ∈ seen
        · have hp2 : p ∈ e.path :: seen := List.mem_cons_of_mem _ hp
          simp [hp, hp2]
        · have hn2 : p ∉ (e.path :: seen) := by
            rw [List.mem_cons]
            rintro (h | h)
            · exact hepne h.symm
            · exact hp h
          simp [hp, hn2]
      · have hepq : e.path = p := by simpa using hq
        have hp : p ∉ seen := by
          rw [← hepq]
          exact hc
        simp [hp, List.find?, hq]

/-- C8: with both sources healthy, the aggregate contains each path at most
once, and the entry kept for any path is the first entry with that path in
source order (ghq first, then basedir) — later duplicates are dropped. -/
theorem C8_aggregator_first_wins (env : Env) (cfg : Config)
    (ghqList basedirList : List GlobalWorktreeEntry)
    (hghq : cfg.ghqEnabled = true)
    (hbase : cfg.worktreeBaseDir ≠ "")
    (hdisc : DiscoverGlobalWorktrees env cfg.worktreeBaseDir = .ok basedirList) :
    ((DiscoverAllWorktrees env (.ok ghqList) cfg).map GlobalWorktreeEntry.path).Nodup ∧
    ∀ p : String,
      (DiscoverAllWorktrees env (.ok ghqList) cfg).find? (fun e => e.path == p) =
        (ghqList ++ basedirList).find? (fun e => e.path == p) := by
  have hbase2 : (cfg.worktreeBaseDir != "") = true := by simp [hbase]
  have hres : DiscoverAllWorktrees env (.ok ghqList) cfg =
      dedupByPath [] (ghqList ++ basedirList) := by
    unfold DiscoverAllWorktrees
    rw [hghq, hbase2, hdisc]
    simp only [if_true]
    rw [← addUniqueEntries_append]
    rw [addUniqueEntries_fst]
    simp
  rw [hres]
  refine ⟨(dedupByPath_paths_fresh (ghqList ++ basedirList) []).1, fun p => ?_⟩
  rw [dedupByPath_find (ghqList ++ basedirList) p []]
  simp

/-- Two entries sharing the path `/p`, reported by both sources. -/
def entryP1 : GlobalWorktreeEntry :=
  { repositoryURL := "", repositoryInfo := none, branch := "main", path := "/p",
    commitHash := "", isMain := true, displayPath := "", loaded := true }

def entryP2 : GlobalWorktreeEntry :=
  { repositoryURL := "", repositoryInfo := none, branch := "other", path := "/p",
    commitHash := "", isMain := false, displayPath := "", loaded := true }

/-- Witness for C8 on a concrete aggregation with a duplicated path. -/
theorem C8_aggregator_first_wins_witness :
    ((DiscoverAllWorktrees dirBaseEnv (.ok [entryP1, entryP2]) ⟨true, "/d"⟩).map
      GlobalWorktreeEntry.path).Nodup ∧
    ∀ p : String,
      (DiscoverAllWorktrees dirBaseEnv (.ok [entryP1, entryP2]) ⟨true, "/d"⟩).find?
          (fun e => e.path == p) =
        ([entryP1, entryP2] ++ []).find? (fun e => e.path == p) :=
  C8_aggregator_first_wins dirBaseEnv ⟨true, "/d"⟩ [entryP1, entryP2] []
    rfl (by decide) rfl

/-! ## Claim C10: lazy entries load exactly once -/

/-- Embeds `extractMainRepoInfo`: an existing `.git` directory is required;
URL, branch and commit come from git commands, with URL and commit errors
tolerated and an empty branch rendered as `"unknown"`. -/
def extractMainRepoInfo (env : Env) (repoPath : String) :
    Except GoErr GlobalWorktreeEntry :=
  match goStat env.fs (goJoin repoPath ".git") with
  | .error e => .error e
  | .ok .dirK =>
    let urlPart :=
      match env.git.repoURL repoPath with
      | .ok rawURL => (rawURL, (ParseRepositoryURL rawURL).toOption)
      | .error _ => ("", none)
    let branch :=
      match getCurrentBranch env repoPath with
      | .ok b => b
      | .error _ => ""
    let branch := if branch == "" then "unknown" else branch
    let commitHash :=
      match getCurrentCommitHash env repoPath with
      | .ok c => c
      | .error _ => ""
    .ok { repositoryURL := urlPart.1, repositoryInfo := urlPart.2, branch := branch,
          path := repoPath, commitHash := commitHash, isMain := true,
          displayPath := "", loaded := true }
  | .ok _ =>
    .error (.other ("not a main repository (has .git file, not directory): " ++ repoPath))

/-- A lazy entry: the entry's current field values plus the load-once guard.
`onceDone` is the consumed state of the `sync.Once`; `loadErr` the recorded
outcome.  The concurrent "exactly one attempt, all callers see its outcome"
behaviour of `sync.Once` is modelled by this sequential state machine: every
call after the first observes `onceDone` and returns the recorded result. -/
structure LazyEntry where
  entry : GlobalWorktreeEntry
  onceDone : Bool
  loadErr : Option GoErr
  deriving Repr

/-- Embeds `IsLoaded` (the `atomic.Bool` read). -/
def IsLoaded (s : LazyEntry) : Bool := s.entry.loaded

/-- Embeds `loadDetailsFromGit`: fallback extraction; on success copy the
fields and set `loaded`. -/
def loadDetailsFromGit (env : Env) (e : GlobalWorktreeEntry) :
    GlobalWorktreeEntry × Option GoErr :=
  match extractWorktreeInfo env e.path with
  | .error err => (e, some err)
  | .ok entry =>
    ({ e with
        repositoryURL := entry.repositoryURL,
        repositoryInfo := entry.repositoryInfo, branch := entry.branch,
        commitHash := entry.commitHash, loaded := true }, none)

/-- Embeds `loadWorktreeDetails`: fast extraction, then git fallback. -/
def loadWorktreeDetails (env : Env) (e : GlobalWorktreeEntry) :
    GlobalWorktreeEntry × Option GoErr :=
  match readWorktreeDetailsFast env.fs e.path with
  | .ok (repoURL, repoInfo, branch, commitHash) =>
    ({ e with
        repositoryURL := repoURL, repositoryInfo := repoInfo,
        branch := branch, commitHash := commitHash, loaded := true }, none)
  | .error _ => loadDetailsFromGit env e

/-- Embeds `loadMainRepoDetails`. -/
def loadMainRepoDetails (env : Env) (e : GlobalWorktreeEntry) :
    GlobalWorktreeEntry × Option GoErr :=
  match extractMainRepoInfo env e.path with
  | .error err => (e, some err)
  | .ok entry =>
    ({ e with
        repositoryURL := entry.repositoryURL,
        repositoryInfo := entry.repositoryInfo, branch := entry.branch,
        commitHash := entry.commitHash, loaded := true }, none)

/-- Embeds `loadDetails`. -/
def loadDetails (env : Env) (e : GlobalWorktreeEntry) :
    GlobalWorktreeEntry × Option GoErr :=
  if e.path == "" then (e, some (.other "path is required for loading"))
  else if e.isMain then loadMainRepoDetails env e
  else loadWorktreeDetails env e

/-- Embeds `EnsureLoaded`: run `loadDetails` under the once-guard and record
its outcome; later calls return the recorded outcome untouched. -/
def EnsureLoaded (env : Env) (s : LazyEntry) : LazyEntry × Option GoErr :=
  if s.onceDone then (s, s.loadErr)
  else
    let r := loadDetails env s.entry
    ({ entry := r.1, onceDone := true, loadErr := r.2 }, r.2)

/-- C10: a failed load never sets the loaded flag; once the single attempt
has failed, every later `EnsureLoaded` — under any environment, i.e. without
re-running extraction — returns the same recorded error and leaves the state
untouched, so `IsLoaded` stays false forever. -/
theorem C10_failed_load_is_permanent :
    (∀ (env : Env) (e : GlobalWorktreeEntry) (er : GoErr),
      (loadDetails env e).2 = some er → ((loadDetails env e).1).loaded = e.loaded) ∧
    (∀ (env : Env) (s : LazyEntry) (er : GoErr),
      s.onceDone = true → s.loadErr = some er →
      EnsureLoaded env s = (s, some er)) ∧
    (∀ (env : Env) (s : LazyEntry) (er : GoErr),
      s.onceDone = false → IsLoaded s = false →
      (loadDetails env s.entry).2 = some er →
      IsLoaded (EnsureLoaded env s).1 = false ∧
      (EnsureLoaded env s).1.onceDone = true ∧
      (EnsureLoaded env s).1.loadErr = some er ∧
      (EnsureLoaded env s).2 = some er) := by
  have hload : ∀ (env : Env) (e : GlobalWorktreeEntry) (er : GoErr),
      (loadDetails env e).2 = some er → ((loadDetails env e).1).loaded = e.loaded := by
    intro env e er herr
    unfold loadDetails at herr ⊢
    by_cases hp : e.path == ""
    · simp [hp]
    · simp only [hp, Bool.false_eq_true, if_false] at herr ⊢
      by_cases hm : e.isMain
      · simp only [hm, if_true] at herr ⊢
        unfold loadMainRepoDetails at herr ⊢
        rcases hx : extractMainRepoInfo env e.path with e2 | entry
        · simp [hx]
        · rw [hx] at herr
          simp at herr
      · simp only [hm, Bool.false_eq_true, if_false] at herr ⊢
        unfold loadWorktreeDetails at herr ⊢
        rcases hx : readWorktreeDetailsFast env.fs e.path with e2 | quad
        · simp only [hx] at herr ⊢
          unfold loadDetailsFromGit at herr ⊢
          rcases hy : extractWorktreeInfo env e.path with e3 | entry
          · simp [hy]
          · rw [hy] at herr
            simp at herr
        · rw [hx] at herr
          simp at herr
  refine ⟨hload, fun env s er hdone herr => ?_, fun env s er hdone hloaded herr => ?_⟩
  · unfold EnsureLoaded
    rw [hdone, herr]
    simp
  · have hl := hload env s.entry er herr
    have hres : EnsureLoaded env s =
        ({ entry := (loadDetails env s.entry).1, onceDone := true,
           loadErr := (loadDetails env s.entry).2 }, (loadDetails env s.entry).2) := by
      unfold EnsureLoaded
      rw [hdone]
      simp
    rw [hres]
    refine ⟨?_, rfl, herr, herr⟩
    show ((loadDetails env s.entry).1).loaded = false
    rw [hl]
    exact hloaded

/-- A lazy entry for a path that has vanished, whose single load attempt
fails in an environment where both the files and the git binary fail. -/
def goneLazy : LazyEntry :=
  ⟨{ repositoryURL := "", repositoryInfo := none, branch := "", path := "/gone",
     commitHash := "", isMain := false, displayPath := "", loaded := false },
   false, none⟩

/-- Witness for C10: on the vanished-path lazy entry, the first call fails
and records the error without marking the entry loaded, and a second call on
the failed state returns the same error with the state untouched. -/
theorem C10_failed_load_is_permanent_witness :
    (IsLoaded (EnsureLoaded emptyEnv goneLazy).1 = false ∧
      (EnsureLoaded emptyEnv goneLazy).1.onceDone = true ∧
      (EnsureLoaded emptyEnv goneLazy).1.loadErr = some .notExist ∧
      (EnsureLoaded emptyEnv goneLazy).2 = some .notExist) ∧
    EnsureLoaded emptyEnv ⟨goneLazy.entry, true, some .notExist⟩ =
      (⟨goneLazy.entry, true, some .notExist⟩, some .notExist) := by
  constructor
  · exact C10_failed_load_is_permanent.2.2 emptyEnv goneLazy .notExist rfl rfl rfl
  · exact C10_failed_load_is_permanent.2.1 emptyEnv
      ⟨goneLazy.entry, true, some .notExist⟩ .notExist rfl rfl

end GwqSpec
